import Mathlib

/-!
Verification of the loan accounting and write-off engine of the
centrifuge-chain repository (pallet-loans).

The engine itself (pallet lifecycle, pricing, policy evaluator, change
gateway) is not among the provided source files; only its tests
(`pallets/loans/src/tests/util.rs`) and benchmarking callers
(`pallets/loans/src/benchmarking.rs`) are.  Following the rules for code
missing from the sources, every definition below is modelled from the
specification's words, guided by how the tests and benchmarks call the
engine.  Fixed-point rates are modelled as rationals, balances as natural
numbers with an explicit `2^128` bound enforced by checked arithmetic.
-/

namespace Loans

/-!
Modelled from the spec: fixed-point interest/advance rates ("all rates in
[0,1] except discount_rate") are exact rationals (ℚ); pool currency
amounts (`u128` balances) and instants in seconds are naturals (ℕ), with
the `u128` range enforced by checked arithmetic.
-/

/-- The `u128` overflow bound used by the checked arithmetic. -/
def balanceBound : ℕ := 2 ^ 128

/-- Modelled from the spec (§7 error taxonomy and §4.1 transition errors). -/
inductive LoanError where
  | BorrowLimitExceeded
  | RepayAmountTooHigh
  | LoanWrittenOff
  | NoWriteOffRuleApplies
  | AdminWriteOffLessThanPolicy
  | LoanNotFound
  | ChangeNotFound
  | ChangeNotReady
  | ChangeAlreadyApplied
  | ArithmeticOverflow
  deriving DecidableEq, Repr

/-- Modelled from the spec: checked `u128` addition — "any overflow fails
the enclosing operation with `ArithmeticOverflow` rather than wrapping". -/
def checkedAdd (a b : ℕ) : Except LoanError ℕ :=
  if a + b < balanceBound then .ok (a + b) else .error .ArithmeticOverflow

/-- Modelled from the spec: the two max-borrow policies of internal
pricing (`UpToTotalBorrowed`, `UpToOutstandingDebt`), each carrying an
advance rate. -/
inductive MaxBorrowAmount where
  | UpToTotalBorrowed (advance_rate : ℚ)
  | UpToOutstandingDebt (advance_rate : ℚ)
  deriving DecidableEq, Repr

/-- The advance rate carried by either max-borrow policy. -/
def MaxBorrowAmount.advanceRate : MaxBorrowAmount → ℚ
  | .UpToTotalBorrowed r => r
  | .UpToOutstandingDebt r => r

/-- Modelled from the spec: borrow restriction flags; the default policy is
`NotWrittenOff` (borrowing forbidden on a written-off loan). -/
inductive BorrowRestrictions where
  | NotWrittenOff
  | NoRestriction
  deriving DecidableEq, Repr

/-- Modelled from the spec: repay restriction flags.  Excess beyond the
outstanding amount is rejected with `RepayAmountTooHigh` unless the policy
is `None`, in which case the excess is ignored (clamped); the spec flags
the exact `None` semantics as an open question and we resolve it as
clamp-to-outstanding. -/
inductive RepayRestrictions where
  | None
  | Strict
  deriving DecidableEq, Repr

/-- Modelled from the spec: a write-off state, a (percentage, penalty)
pair, either policy-derived or admin-overridden. -/
structure WriteOffState where
  percentage : ℚ
  penalty : ℚ
  deriving DecidableEq, Repr

/-- Modelled from the spec: the pricing-variant-specific mutable ledger of
an `ActiveLoan` under internal pricing, together with the immutable
`LoanInfo` snapshot fields the claims exercise (collateral value,
max-borrow policy, interest rate, restrictions, fixed maturity). -/
structure ActiveLoan where
  collateralValue : ℕ
  maxBorrowAmount : MaxBorrowAmount
  interestRatePerSec : ℚ
  borrowRestriction : BorrowRestrictions
  repayRestriction : RepayRestrictions
  maturity : ℕ
  totalBorrowed : ℕ
  repaidPrincipal : ℕ
  accrued : ℚ
  lastUpdated : ℕ
  writeOff : Option WriteOffState
  deriving DecidableEq, Repr

attribute [ext] ActiveLoan

/-- Outstanding principal as a natural number:
total borrowed minus repaid principal. -/
def principalNat (l : ActiveLoan) : ℕ := l.totalBorrowed - l.repaidPrincipal

/-- Outstanding principal as an integer (so that the `≥ 0` invariant is a
real statement, not a fact about truncated subtraction). -/
def principalZ (l : ActiveLoan) : ℤ :=
  (l.totalBorrowed : ℤ) - (l.repaidPrincipal : ℤ)

/-- The write-off penalty rate currently charged (zero when the loan is
not written off). -/
def penaltyRate (l : ActiveLoan) : ℚ :=
  (l.writeOff.map WriteOffState.penalty).getD 0

/-- Interest accrues at the loan rate plus the write-off penalty. -/
def effectiveRate (l : ActiveLoan) : ℚ :=
  l.interestRatePerSec + penaltyRate l

/-- Modelled from the spec (§4.2): debt = principal + interest accrued
since last update via compounding; accrual brings the unpaid-interest
ledger up to `now` by compounding the whole debt secondly. -/
def accrueTo (l : ActiveLoan) (now : ℕ) : ActiveLoan :=
  if l.lastUpdated ≤ now then
    { l with
      accrued := ((principalNat l : ℚ) + l.accrued) *
          (1 + effectiveRate l) ^ (now - l.lastUpdated) - (principalNat l : ℚ)
      lastUpdated := now }
  else l

/-- Current outstanding debt (principal plus unpaid interest) as an exact
rational, with the ledger already accrued to the instant of interest. -/
def debtQ (l : ActiveLoan) : ℚ := (principalNat l : ℚ) + l.accrued

/-- Modelled from the spec (§4.2 max-borrow policies):
`UpToTotalBorrowed` caps cumulative principal at
advance_rate × collateral_value; `UpToOutstandingDebt` caps *current*
outstanding debt at the same bound. -/
def maxBorrowCheck (l : ActiveLoan) (amount : ℕ) : Bool :=
  match l.maxBorrowAmount with
  | .UpToTotalBorrowed r =>
      decide (((l.totalBorrowed + amount : ℕ) : ℚ) ≤ r * (l.collateralValue : ℚ))
  | .UpToOutstandingDebt r =>
      decide (debtQ l + (amount : ℚ) ≤ r * (l.collateralValue : ℚ))

/-- Modelled from the spec (§4.1 `borrow` and §6 `increase_debt`): the
shared principal-increase path.  It fails with `LoanWrittenOff` if
restrictions forbid borrowing on a written-off loan, with
`BorrowLimitExceeded` if the amount would exceed the pricing model's
max-borrow evaluation (skipped for the administrative `increase_debt`,
which performs no collateral re-check), and with `ArithmeticOverflow` on a
balance overflow; otherwise it increases the borrowed principal. -/
def borrowCore (l : ActiveLoan) (amount : ℕ) (now : ℕ)
    (checkLimit : Bool) : Except LoanError ActiveLoan :=
  let la := accrueTo l now
  if la.writeOff.isSome && decide (la.borrowRestriction = .NotWrittenOff) then
    .error .LoanWrittenOff
  else if checkLimit && !maxBorrowCheck la amount then
    .error .BorrowLimitExceeded
  else
    match checkedAdd la.totalBorrowed amount with
    | .error e => .error e
    | .ok tb => .ok { la with totalBorrowed := tb }

/-- Modelled from the spec (§4.1 `borrow`): a borrower-initiated borrow,
with the max-borrow limit enforced. -/
def borrowLoan (l : ActiveLoan) (amount : ℕ) (now : ℕ) :
    Except LoanError ActiveLoan :=
  borrowCore l amount now true

instance {ε α : Type} [DecidableEq ε] [DecidableEq α] : DecidableEq (Except ε α) := fun a b =>
  match a, b with
  | .ok x, .ok y =>
      if h : x = y then isTrue (by rw [h]) else isFalse (by simp [h])
  | .error x, .error y =>
      if h : x = y then isTrue (by rw [h]) else isFalse (by simp [h])
  | .ok _, .error _ => isFalse (by simp)
  | .error _, .ok _ => isFalse (by simp)

/-- Modelled from the spec: the three components of a repayment
(`principal`, `interest`, `unscheduled`). -/
structure RepaidInput where
  principal : ℕ
  interest : ℕ
  unscheduled : ℕ
  deriving DecidableEq, Repr

/-- Modelled from the spec (§4.1 `repay`): the principal component applied
to the ledger — excess beyond the outstanding amount is rejected with
`RepayAmountTooHigh` unless the repay restriction policy is `None` (then
the excess is ignored). -/
def appliedPrincipalFor (la : ActiveLoan) (amount : ℕ) :
    Except LoanError ℕ :=
  match la.repayRestriction with
  | .None => .ok (min amount (principalNat la))
  | .Strict =>
      if amount ≤ principalNat la then .ok amount
      else .error .RepayAmountTooHigh

/-- Modelled from the spec (§4.1 `repay`): repayment is applied
principal-first; the interest component is clamped to the interest
accrued so far. -/
def repayLoan (l : ActiveLoan) (input : RepaidInput) (now : ℕ) :
    Except LoanError ActiveLoan :=
  let la := accrueTo l now
  match appliedPrincipalFor la input.principal with
  | .error e => .error e
  | .ok ap =>
      match checkedAdd la.repaidPrincipal ap with
      | .error e => .error e
      | .ok rp =>
          .ok { la with
            repaidPrincipal := rp
            accrued := la.accrued - min (input.interest : ℚ) la.accrued }

/-!  Write-off policy evaluator (spec §3, §4.3). -/

/-- Modelled from the spec: the currently available write-off trigger,
"principal overdue by at least N days". -/
inductive WriteOffTrigger where
  | PrincipalOverdueDays (days : ℕ)
  deriving DecidableEq, Repr

/-- Modelled from the spec: a write-off rule, a set of triggers plus a
(percentage, penalty) pair. -/
structure WriteOffRule where
  triggers : List WriteOffTrigger
  percentage : ℚ
  penalty : ℚ
  deriving DecidableEq, Repr

def secsPerDay : ℕ := 86400

/-- The overdue-days threshold carried by a trigger. -/
def triggerDaysOf : WriteOffTrigger → ℕ
  | .PrincipalOverdueDays d => d

/-- A trigger evaluated against a loan's overdue duration in seconds. -/
def triggerSatisfied (overdue : ℕ) : WriteOffTrigger → Bool
  | .PrincipalOverdueDays d => decide (d * secsPerDay ≤ overdue)

/-- A rule is satisfied when any of its triggers is. -/
def ruleSatisfied (overdue : ℕ) (r : WriteOffRule) : Bool :=
  r.triggers.any (triggerSatisfied overdue)

/-- The overdue-days threshold of a single-trigger rule. -/
def ruleDays (r : WriteOffRule) : ℕ :=
  match r.triggers with
  | [WriteOffTrigger.PrincipalOverdueDays d] => d
  | _ => 0

/-- Modelled from the spec (§4.3 Algorithm): scan the rules in order,
evaluating each trigger, and track the last rule whose trigger condition
is satisfied; `none` when no rule is satisfied. -/
def findRule (policy : List WriteOffRule) (overdue : ℕ) : Option WriteOffRule :=
  policy.foldl (fun acc rule => if ruleSatisfied overdue rule then some rule else acc) none

/-- Modelled from the spec (§4.3): a loan's overdue duration, now minus
the scheduled-repayment instant, zero if not yet due. -/
def overdueSecs (l : ActiveLoan) (now : ℕ) : ℕ := now - l.maturity

/-- Modelled from the spec (§4.1 `write_off`): the permissionless
write-off requires that the policy evaluator finds an applicable rule
(else `NoWriteOffRuleApplies`) and records its terms. -/
def writeOffLoan (l : ActiveLoan) (policy : List WriteOffRule) (now : ℕ) :
    Except LoanError ActiveLoan :=
  match findRule policy (overdueSecs l now) with
  | none => .error .NoWriteOffRuleApplies
  | some r => .ok { accrueTo l now with writeOff := some ⟨r.percentage, r.penalty⟩ }

/-- Present value of an outstanding debt written off by `pct`. -/
def presentValueWith (pct : ℚ) (debt : ℚ) : ℚ := (1 - pct) * debt

/-- Modelled from the spec (§4.1 `admin_write_off`): the privileged
write-off may set arbitrary terms but never less punitive than what the
policy currently computes: the resulting present value must not exceed
the policy rule's one, and the penalty must not be milder; when no policy
rule currently applies there is nothing to compare against. -/
def adminWriteOff (l : ActiveLoan) (policy : List WriteOffRule)
    (pct pen : ℚ) (now : ℕ) : Except LoanError ActiveLoan :=
  let l := accrueTo l now
  match findRule policy (overdueSecs l now) with
  | some r =>
      if presentValueWith pct (debtQ l) ≤ presentValueWith r.percentage (debtQ l)
          ∧ r.penalty ≤ pen then
        .ok { l with writeOff := some ⟨pct, pen⟩ }
      else .error .AdminWriteOffLessThanPolicy
  | none => .ok { l with writeOff := some ⟨pct, pen⟩ }

/-!  Pool-level state: loans, the active policy, and the change gateway
(spec §3, §4.4, §9). -/


/-- Modelled from the spec: the pre-activation loan descriptor, restricted
to the internally priced fields the claims exercise. -/
structure LoanInfo where
  collateralValue : ℕ
  maxBorrowAmount : MaxBorrowAmount
  interestRatePerSec : ℚ
  borrowRestriction : BorrowRestrictions
  repayRestriction : RepayRestrictions
  maturity : ℕ
  deriving DecidableEq, Repr

/-- Modelled from the spec: the first borrow consumes a `LoanInfo` into an
`ActiveLoan` with an empty ledger. -/
def activateLoan (info : LoanInfo) (now : ℕ) : ActiveLoan :=
  { collateralValue := info.collateralValue
    maxBorrowAmount := info.maxBorrowAmount
    interestRatePerSec := info.interestRatePerSec
    borrowRestriction := info.borrowRestriction
    repayRestriction := info.repayRestriction
    maturity := info.maturity
    totalBorrowed := 0
    repaidPrincipal := 0
    accrued := 0
    lastUpdated := now
    writeOff := none }

/-- Modelled from the spec: a loan-field mutation (the payload of a `Loan`
Change). -/
inductive LoanMutation where
  | InterestRate (r : ℚ)
  | Maturity (m : ℕ)
  deriving DecidableEq, Repr

/-- Applying a loan mutation in place. -/
def applyMutation (l : ActiveLoan) (m : LoanMutation) : ActiveLoan :=
  match m with
  | .InterestRate r => { l with interestRatePerSec := r }
  | .Maturity t => { l with maturity := t }

/-- Modelled from the spec (§3): the `Change` tagged union — loan
mutation, policy replacement, or debt transfer. -/
inductive Change where
  | Loan (id : ℕ) (m : LoanMutation)
  | Policy (p : List WriteOffRule)
  | TransferDebt (source target : ℕ) (repaid : RepaidInput) (borrowAmount : ℕ)
  deriving DecidableEq, Repr

/-- Modelled from the spec (§9): the three-state record of a noted
change. -/
inductive ChangeStatus where
  | Proposed
  | Released
  | Applied
  deriving DecidableEq, Repr

/-- Modelled from the spec (§3): a Change is content-addressed (the hash
of its serialized form); the model uses the content itself as its own
identifier, a perfect hash. -/
abbrev ChangeId := Change

/-- Association-list lookup keyed by decidable equality. -/
def alLookup {α β : Type} [DecidableEq α] (k : α) : List (α × β) → Option β
  | [] => none
  | (k', v) :: rest => if k = k' then some v else alLookup k rest

/-- Association-list insert-or-replace (first occurrence replaced). -/
def alInsert {α β : Type} [DecidableEq α] (k : α) (v : β) :
    List (α × β) → List (α × β)
  | [] => [(k, v)]
  | (k', v') :: rest =>
      if k = k' then (k, v) :: rest else (k', v') :: alInsert k v rest

/-- Association-list removal of a key. -/
def alErase {α β : Type} [DecidableEq α] (k : α) : List (α × β) → List (α × β)
  | [] => []
  | (k', v') :: rest => if k = k' then rest else (k', v') :: alErase k rest

/-- Modelled from the spec (§3, §9, §10): the pool-scoped ledger object —
created loans, active loans, the currently-active write-off policy, and
the key-value map of noted changes keyed by content hash. -/
structure PoolState where
  createdLoans : List (ℕ × LoanInfo)
  activeLoans : List (ℕ × ActiveLoan)
  policy : List WriteOffRule
  changes : List (ChangeId × ChangeStatus)
  deriving DecidableEq, Repr

/-- Modelled from the spec (§4.4 Propose): `note` returns the
content-addressed ChangeId; re-proposing byte-identical content before the
prior one resolves is idempotent, returning the same ChangeId with no
duplicate record; content whose record was already consumed (Applied) is
re-proposed afresh. -/
def noteChange (s : PoolState) (c : Change) : ChangeId × PoolState :=
  match alLookup c s.changes with
  | some .Applied => (c, { s with changes := alInsert c .Proposed s.changes })
  | some _ => (c, s)
  | none => (c, { s with changes := alInsert c .Proposed s.changes })

/-- Modelled from the spec (§4.4 Wait): the governance collaborator
releases a proposed change once its minimum delay has passed. -/
def releaseChange (s : PoolState) (c : ChangeId) : PoolState :=
  match alLookup c s.changes with
  | some .Proposed => { s with changes := alInsert c .Released s.changes }
  | _ => s

/-- Pool-level borrow path shared by `borrow` and `increase_debt`: the
first borrow activates a created loan. -/
def borrowAction (s : PoolState) (id : ℕ) (amount : ℕ)
    (now : ℕ) (checkLimit : Bool) : Except LoanError PoolState :=
  match alLookup id s.activeLoans with
  | some l =>
      match borrowCore l amount now checkLimit with
      | .error e => .error e
      | .ok l' => .ok { s with activeLoans := alInsert id l' s.activeLoans }
  | none =>
      match alLookup id s.createdLoans with
      | some info =>
          match borrowCore (activateLoan info now) amount now checkLimit with
          | .error e => .error e
          | .ok l' =>
              .ok { s with
                createdLoans := alErase id s.createdLoans
                activeLoans := alInsert id l' s.activeLoans }
      | none => .error .LoanNotFound

/-- Modelled from the spec (§4.1 `borrow`, pool level). -/
def poolBorrow (s : PoolState) (id : ℕ) (amount : ℕ) (now : ℕ) :
    Except LoanError PoolState :=
  borrowAction s id amount now true

/-- Modelled from the spec (§6): `increase_debt`, the administrative
principal increase without collateral re-check. -/
def increaseDebt (s : PoolState) (id : ℕ) (amount : ℕ) (now : ℕ) :
    Except LoanError PoolState :=
  borrowAction s id amount now false

/-- Modelled from the spec (§4.1 `repay`, pool level). -/
def poolRepay (s : PoolState) (id : ℕ) (input : RepaidInput) (now : ℕ) :
    Except LoanError PoolState :=
  match alLookup id s.activeLoans with
  | some l =>
      match repayLoan l input now with
      | .error e => .error e
      | .ok l' => .ok { s with activeLoans := alInsert id l' s.activeLoans }
  | none => .error .LoanNotFound

/-- Modelled from the spec (§4.4): the debt-transfer Change atomically
repays `repaid` on the source loan and borrows `borrowAmount` on the
target loan as a single unit; if either leg fails the whole transfer
fails. -/
def transferDebt (s : PoolState) (src tgt : ℕ) (repaid : RepaidInput)
    (borrowAmount : ℕ) (now : ℕ) : Except LoanError PoolState :=
  match poolRepay s src repaid now with
  | .error e => .error e
  | .ok s₁ => borrowAction s₁ tgt borrowAmount now true

/-- Modelled from the spec (§4.4 Apply, §9): the Change payload is a
closed tagged union matched explicitly at apply time. -/
def performChange (s : PoolState) (c : Change) (now : ℕ) :
    Except LoanError PoolState :=
  match c with
  | .Loan id m =>
      match alLookup id s.activeLoans with
      | some l =>
          .ok { s with activeLoans := alInsert id (applyMutation l m) s.activeLoans }
      | none => .error .LoanNotFound
  | .Policy p => .ok { s with policy := p }
  | .TransferDebt src tgt repaid amount => transferDebt s src tgt repaid amount now

/-- Modelled from the spec (§4.4 Apply): retrieve the released payload,
perform the mutation, and invalidate the ChangeId (a Change is
single-use: replay fails with `ChangeAlreadyApplied`, an early request
with `ChangeNotReady`, an unknown id with `ChangeNotFound`). -/
def applyChange (s : PoolState) (id : ChangeId) (now : ℕ) :
    Except LoanError PoolState :=
  match alLookup id s.changes with
  | none => .error .ChangeNotFound
  | some .Proposed => .error .ChangeNotReady
  | some .Applied => .error .ChangeAlreadyApplied
  | some .Released =>
      match performChange s id now with
      | .error e => .error e
      | .ok s' => .ok { s' with changes := alInsert id .Applied s'.changes }

/-- The value of a successful result, or a fallback on failure (the
all-or-nothing rollback of the enclosing ledger). -/
def exceptGetD {ε α : Type} (e : Except ε α) (a : α) : α :=
  match e with
  | .ok x => x
  | .error _ => a

/-- Modelled from the spec (§5, §7): each operation is transactional —
any failure aborts the enclosing transaction in full, leaving the pool
state unchanged. -/
def applyChangeOr (s : PoolState) (id : ChangeId) (now : ℕ) : PoolState :=
  exceptGetD (applyChange s id now) s

/-- Transactional wrapper of the debt transfer. -/
def transferDebtOr (s : PoolState) (src tgt : ℕ) (repaid : RepaidInput)
    (borrowAmount : ℕ) (now : ℕ) : PoolState :=
  exceptGetD (transferDebt s src tgt repaid borrowAmount now) s

/-!  Loan-level operation sequences (for the borrow/repay invariant). -/

/-- A borrow or repay operation, tagged with its instant. -/
inductive LoanOp where
  | borrow (amount : ℕ) (now : ℕ)
  | repay (input : RepaidInput) (now : ℕ)
  deriving DecidableEq, Repr

/-- One loan-level operation. -/
def stepLoan (l : ActiveLoan) : LoanOp → Except LoanError ActiveLoan
  | .borrow a t => borrowLoan l a t
  | .repay i t => repayLoan l i t

/-- Transactional loan-level operation: a failed operation leaves the
ledger unchanged. -/
def applyOp (l : ActiveLoan) (op : LoanOp) : ActiveLoan :=
  exceptGetD (stepLoan l op) l

/-- A finite sequence of borrow/repay operations. -/
def applySeq (l : ActiveLoan) (ops : List LoanOp) : ActiveLoan :=
  ops.foldl applyOp l

/-- The max-borrow policy bound: advance rate times collateral value. -/
def maxBorrowBound (l : ActiveLoan) : ℚ :=
  l.maxBorrowAmount.advanceRate * (l.collateralValue : ℚ)

/-- The ledger well-formedness invariant maintained by every operation. -/
structure LoanInv (l : ActiveLoan) : Prop where
  repaid_le : l.repaidPrincipal ≤ l.totalBorrowed
  accrued_nonneg : 0 ≤ l.accrued
  rate_nonneg : 0 ≤ l.interestRatePerSec
  penalty_nonneg : 0 ≤ penaltyRate l
  borrowed_lt : l.totalBorrowed < balanceBound

/-!  Concrete instances used by counterexamples and witnesses, drawn from
the spec's examples and the benchmarking/test setup. -/

/-- The spec's example write-off rule (1 day, 10%, 1%). -/
def ruleA : WriteOffRule :=
  { triggers := [WriteOffTrigger.PrincipalOverdueDays 1]
    percentage := 1 / 10
    penalty := 1 / 100 }

/-- The spec's example write-off rule (30 days, 100%, 5%). -/
def ruleB : WriteOffRule :=
  { triggers := [WriteOffTrigger.PrincipalOverdueDays 30]
    percentage := 1
    penalty := 1 / 20 }

/-- A fresh internally priced loan descriptor mirroring benchmarking's
`base_loan`: `UpToOutstandingDebt` with advance rate 1.0, collateral value
1,000,000, interest rate 1/5000 per year compounding secondly, 40-year
maturity, `NotWrittenOff` borrow restriction and `None` repay
restriction. -/
def exampleInfo : LoanInfo :=
  { collateralValue := 1000000
    maxBorrowAmount := .UpToOutstandingDebt 1
    interestRatePerSec := 1 / 157680000000
    borrowRestriction := .NotWrittenOff
    repayRestriction := .None
    maturity := 1261440000 }

/-- The example loan activated at instant 0 with an empty ledger. -/
def exampleLoan : ActiveLoan := activateLoan exampleInfo 0

/-- A target loan whose borrow limit is tiny (collateral value 5),
used to exercise a failing borrow leg. -/
def smallLoan : ActiveLoan :=
  { activateLoan exampleInfo 0 with collateralValue := 5 }

/-- A concrete sequence of borrow and repay operations. -/
def exampleOps : List LoanOp :=
  [LoanOp.borrow 500000 0, LoanOp.repay ⟨200000, 0, 0⟩ 10, LoanOp.borrow 100 20]

/-- A concrete loan mutation Change on loan 1. -/
def exampleChange : Change := Change.Loan 1 (LoanMutation.InterestRate 0)

/-- A pool holding the example loan as loan 1 and the example Change
already released. -/
def examplePool : PoolState :=
  { createdLoans := []
    activeLoans := [(1, exampleLoan)]
    policy := []
    changes := [(exampleChange, ChangeStatus.Released)] }

/-- The example pool after the example Change has been applied. -/
def examplePoolApplied : PoolState :=
  { createdLoans := []
    activeLoans := [(1, { exampleLoan with interestRatePerSec := 0 })]
    policy := []
    changes := [(exampleChange, ChangeStatus.Applied)] }

/-- A pool with a borrowed source loan 1 and the small-limit target
loan 2. -/
def transferPool : PoolState :=
  { createdLoans := []
    activeLoans := [(1, { exampleLoan with totalBorrowed := 100 }), (2, smallLoan)]
    policy := []
    changes := [] }

/-- A pool holding the example descriptor as a created, never-borrowed
loan 2. -/
def createdPool : PoolState :=
  { createdLoans := [(2, exampleInfo)]
    activeLoans := []
    policy := []
    changes := [] }

/-- A loan with oversized collateral (2^129), enough for the borrow-limit
check to pass on an amount whose balance update overflows `u128`. -/
def bigLoan : ActiveLoan :=
  { activateLoan exampleInfo 0 with collateralValue := 2 ^ 129 }

/-!  Association-list lemmas. -/

/-- The number of records stored under a key. -/
def countKey {α β : Type} [DecidableEq α] (k : α) : List (α × β) → ℕ
  | [] => 0
  | p :: rest => (if p.1 = k then 1 else 0) + countKey k rest

/-- The keys of an association list are pairwise distinct. -/
def keysNodup {α β : Type} [DecidableEq α] (xs : List (α × β)) : Prop :=
  (xs.map Prod.fst).Nodup

theorem alLookup_alInsert_self {α β : Type} [DecidableEq α] (k : α) (v : β)
    (xs : List (α × β)) : alLookup k (alInsert k v xs) = some v := by
  induction xs with
  | nil => simp [alLookup, alInsert]
  | cons p rest ih =>
      by_cases h : k = p.1 <;> simp [alLookup, alInsert, h, ih]

theorem alLookup_alInsert_ne {α β : Type} [DecidableEq α] {k k' : α} (v : β)
    (xs : List (α × β)) (h : k' ≠ k) :
    alLookup k' (alInsert k v xs) = alLookup k' xs := by
  induction xs with
  | nil => simp [alLookup, alInsert, h]
  | cons p rest ih =>
      by_cases hk : k = p.1
      · subst hk
        simp [alLookup, alInsert, h]
      · by_cases hk' : k' = p.1 <;> simp [alLookup, alInsert, hk, hk', ih]

theorem countKey_eq_zero {α β : Type} [DecidableEq α] {k : α} {xs : List (α × β)}
    (h : k ∉ xs.map Prod.fst) : countKey k xs = 0 := by
  induction xs with
  | nil => rfl
  | cons p rest ih =>
      simp only [List.map_cons, List.mem_cons, not_or] at h
      have h1 : ¬(p.1 = k) := fun hc => h.1 hc.symm
      simp [countKey, h1, ih h.2]

theorem countKey_alInsert {α β : Type} [DecidableEq α] {k : α} (v : β)
    {xs : List (α × β)} (hnd : keysNodup xs) :
    countKey k (alInsert k v xs) = 1 := by
  induction xs with
  | nil => simp [countKey, alInsert]
  | cons p rest ih =>
      simp only [keysNodup, List.map_cons, List.nodup_cons] at hnd
      by_cases hk : k = p.1
      · subst hk
        simp [alInsert, countKey, countKey_eq_zero hnd.1]
      · have h1 : ¬(p.1 = k) := fun hc => hk hc.symm
        simp [alInsert, hk, countKey, h1, ih hnd.2]

theorem mem_keys_alInsert {α β : Type} [DecidableEq α] {a k : α} (v : β)
    (xs : List (α × β)) :
    a ∈ (alInsert k v xs).map Prod.fst ↔ a = k ∨ a ∈ xs.map Prod.fst := by
  induction xs with
  | nil => simp [alInsert]
  | cons p rest ih =>
      by_cases hk : k = p.1
      · simp [alInsert, hk]
      · simp only [alInsert, hk, if_false, List.map_cons, List.mem_cons, ih]
        tauto

theorem keysNodup_alInsert {α β : Type} [DecidableEq α] (k : α) (v : β)
    {xs : List (α × β)} (hnd : keysNodup xs) : keysNodup (alInsert k v xs) := by
  induction xs with
  | nil => simp [keysNodup, alInsert]
  | cons p rest ih =>
      simp only [keysNodup, List.map_cons, List.nodup_cons] at hnd
      by_cases hk : k = p.1
      · subst hk
        simp only [keysNodup, alInsert, List.map_cons, List.nodup_cons]
        simpa using hnd
      · have hrest := ih hnd.2
        simp only [keysNodup, alInsert, if_neg hk, List.map_cons, List.nodup_cons]
        refine ⟨?_, hrest⟩
        rw [mem_keys_alInsert]
        push_neg
        exact ⟨fun hc => hk hc.symm, hnd.1⟩

/-!  Accrual lemmas. -/

theorem accrueTo_totalBorrowed (l : ActiveLoan) (t : ℕ) :
    (accrueTo l t).totalBorrowed = l.totalBorrowed := by
  unfold accrueTo; split <;> rfl

theorem accrueTo_repaidPrincipal (l : ActiveLoan) (t : ℕ) :
    (accrueTo l t).repaidPrincipal = l.repaidPrincipal := by
  unfold accrueTo; split <;> rfl

theorem accrueTo_writeOff (l : ActiveLoan) (t : ℕ) :
    (accrueTo l t).writeOff = l.writeOff := by
  unfold accrueTo; split <;> rfl

theorem accrueTo_collateralValue (l : ActiveLoan) (t : ℕ) :
    (accrueTo l t).collateralValue = l.collateralValue := by
  unfold accrueTo; split <;> rfl

theorem accrueTo_maxBorrowAmount (l : ActiveLoan) (t : ℕ) :
    (accrueTo l t).maxBorrowAmount = l.maxBorrowAmount := by
  unfold accrueTo; split <;> rfl

theorem accrueTo_interestRatePerSec (l : ActiveLoan) (t : ℕ) :
    (accrueTo l t).interestRatePerSec = l.interestRatePerSec := by
  unfold accrueTo; split <;> rfl

theorem accrueTo_borrowRestriction (l : ActiveLoan) (t : ℕ) :
    (accrueTo l t).borrowRestriction = l.borrowRestriction := by
  unfold accrueTo; split <;> rfl

theorem accrueTo_repayRestriction (l : ActiveLoan) (t : ℕ) :
    (accrueTo l t).repayRestriction = l.repayRestriction := by
  unfold accrueTo; split <;> rfl

theorem accrueTo_maturity (l : ActiveLoan) (t : ℕ) :
    (accrueTo l t).maturity = l.maturity := by
  unfold accrueTo; split <;> rfl

theorem principalNat_accrueTo (l : ActiveLoan) (t : ℕ) :
    principalNat (accrueTo l t) = principalNat l := by
  unfold principalNat
  rw [accrueTo_totalBorrowed, accrueTo_repaidPrincipal]

theorem principalZ_accrueTo (l : ActiveLoan) (t : ℕ) :
    principalZ (accrueTo l t) = principalZ l := by
  unfold principalZ
  rw [accrueTo_totalBorrowed, accrueTo_repaidPrincipal]

theorem penaltyRate_accrueTo (l : ActiveLoan) (t : ℕ) :
    penaltyRate (accrueTo l t) = penaltyRate l := by
  unfold penaltyRate
  rw [accrueTo_writeOff]

theorem accrueTo_accrued_nonneg {l : ActiveLoan} (t : ℕ)
    (ha : 0 ≤ l.accrued) (hr : 0 ≤ l.interestRatePerSec)
    (hp : 0 ≤ penaltyRate l) : 0 ≤ (accrueTo l t).accrued := by
  unfold accrueTo
  split
  · simp only
    have hf : (1 : ℚ) ≤ (1 + effectiveRate l) ^ (t - l.lastUpdated) := by
      apply one_le_pow₀
      have : 0 ≤ effectiveRate l := add_nonneg hr hp
      linarith
    have hpn : (0 : ℚ) ≤ (principalNat l : ℚ) := Nat.cast_nonneg _
    have := le_mul_of_one_le_right (add_nonneg hpn ha) hf
    linarith
  · exact ha

theorem loanInv_accrueTo {l : ActiveLoan} (t : ℕ) (h : LoanInv l) :
    LoanInv (accrueTo l t) := by
  refine ⟨?_, ?_, ?_, ?_, ?_⟩
  · rw [accrueTo_totalBorrowed, accrueTo_repaidPrincipal]; exact h.repaid_le
  · exact accrueTo_accrued_nonneg t h.accrued_nonneg h.rate_nonneg h.penalty_nonneg
  · rw [accrueTo_interestRatePerSec]; exact h.rate_nonneg
  · rw [penaltyRate_accrueTo]; exact h.penalty_nonneg
  · rw [accrueTo_totalBorrowed]; exact h.borrowed_lt

theorem le_lastUpdated_accrueTo (l : ActiveLoan) (t : ℕ) :
    t ≤ (accrueTo l t).lastUpdated := by
  unfold accrueTo
  split
  · simp
  · omega

theorem accrueTo_id_of_le {l : ActiveLoan} {now : ℕ}
    (h : now ≤ l.lastUpdated) : accrueTo l now = l := by
  unfold accrueTo
  by_cases hle : l.lastUpdated ≤ now
  · have heq : l.lastUpdated = now := le_antisymm hle h
    rw [if_pos hle]
    ext <;> simp [heq]
  · rw [if_neg hle]

theorem accrueTo_accrueTo (l : ActiveLoan) (t : ℕ) :
    accrueTo (accrueTo l t) t = accrueTo l t :=
  accrueTo_id_of_le (le_lastUpdated_accrueTo l t)

/-!  Operation characterization lemmas. -/

theorem borrowCore_ok {l : ActiveLoan} {amount : ℕ} {now : ℕ}
    {cl : Bool} {l' : ActiveLoan} (h : borrowCore l amount now cl = .ok l') :
    l' = { accrueTo l now with
           totalBorrowed := (accrueTo l now).totalBorrowed + amount } ∧
    (accrueTo l now).totalBorrowed + amount < balanceBound ∧
    (cl = true → maxBorrowCheck (accrueTo l now) amount = true) ∧
    ¬((accrueTo l now).writeOff.isSome = true ∧
      (accrueTo l now).borrowRestriction = .NotWrittenOff) := by
  unfold borrowCore checkedAdd at h
  dsimp only at h
  split at h
  case isTrue => exact absurd h (by simp)
  case isFalse hc1 =>
    split at h
    case isTrue => exact absurd h (by simp)
    case isFalse hc2 =>
      split at h
      case h_1 e heq => exact absurd h (by simp)
      case h_2 tb heq =>
        split at heq
        case isTrue hlt =>
          injection heq with heq2
          subst heq2
          injection h with h2
          subst h2
          refine ⟨rfl, hlt, ?_, ?_⟩
          · intro hcl
            subst hcl
            simpa using hc2
          · intro hcontra
            apply hc1
            simp [hcontra.1, hcontra.2]
        case isFalse => exact absurd heq (by simp)

theorem appliedPrincipalFor_le {la : ActiveLoan} {amount ap : ℕ}
    (h : appliedPrincipalFor la amount = .ok ap) : ap ≤ principalNat la := by
  unfold appliedPrincipalFor at h
  split at h
  · injection h with h2
    subst h2
    exact min_le_right _ _
  · split at h
    · injection h with h2
      subst h2
      assumption
    · exact absurd h (by simp)

theorem repayLoan_ok {l : ActiveLoan} {input : RepaidInput} {now : ℕ}
    {l' : ActiveLoan} (h : repayLoan l input now = .ok l') :
    ∃ ap, ap ≤ principalNat (accrueTo l now) ∧
      appliedPrincipalFor (accrueTo l now) input.principal = .ok ap ∧
      l' = { accrueTo l now with
             repaidPrincipal := (accrueTo l now).repaidPrincipal + ap
             accrued := (accrueTo l now).accrued -
               min (input.interest : ℚ) (accrueTo l now).accrued } ∧
      (accrueTo l now).repaidPrincipal + ap < balanceBound := by
  unfold repayLoan checkedAdd at h
  dsimp only at h
  split at h
  case h_1 => exact absurd h (by simp)
  case h_2 ap heq =>
    split at h
    case h_1 => exact absurd h (by simp)
    case h_2 rp heq2 =>
      split at heq2
      case isTrue hlt =>
        injection heq2 with he
        subst he
        injection h with h2
        subst h2
        exact ⟨ap, appliedPrincipalFor_le heq, heq, rfl, hlt⟩
      case isFalse => exact absurd heq2 (by simp)

/-!  Invariant preservation. -/

theorem loanInv_borrowCore {l : ActiveLoan} {amount : ℕ} {now : ℕ}
    {cl : Bool} {l' : ActiveLoan} (hinv : LoanInv l)
    (h : borrowCore l amount now cl = .ok l') : LoanInv l' := by
  obtain ⟨hl', hlt, _, _⟩ := borrowCore_ok h
  subst hl'
  have hala := loanInv_accrueTo now hinv
  exact ⟨Nat.le_trans hala.repaid_le (Nat.le_add_right _ _),
    hala.accrued_nonneg, hala.rate_nonneg, hala.penalty_nonneg, hlt⟩

theorem loanInv_repayLoan {l : ActiveLoan} {input : RepaidInput} {now : ℕ}
    {l' : ActiveLoan} (hinv : LoanInv l)
    (h : repayLoan l input now = .ok l') : LoanInv l' := by
  obtain ⟨ap, hap, _, hl', hlt⟩ := repayLoan_ok h
  subst hl'
  have hala := loanInv_accrueTo now hinv
  refine ⟨?_, ?_, hala.rate_nonneg, hala.penalty_nonneg, hala.borrowed_lt⟩
  · have h1 := hala.repaid_le
    unfold principalNat at hap
    show (accrueTo l now).repaidPrincipal + ap ≤ (accrueTo l now).totalBorrowed
    omega
  · show (0 : ℚ) ≤ (accrueTo l now).accrued -
      min (input.interest : ℚ) (accrueTo l now).accrued
    have h1 : min (input.interest : ℚ) (accrueTo l now).accrued
        ≤ (accrueTo l now).accrued := min_le_right _ _
    linarith

theorem loanInv_applyOp {l : ActiveLoan} (op : LoanOp) (h : LoanInv l) :
    LoanInv (applyOp l op) := by
  cases op with
  | borrow a t =>
      unfold applyOp exceptGetD stepLoan
      cases hb : borrowLoan l a t with
      | ok l' =>
          simp only [hb]
          exact loanInv_borrowCore h hb
      | error e => simp only [hb]; exact h
  | repay i t =>
      unfold applyOp exceptGetD stepLoan
      cases hb : repayLoan l i t with
      | ok l' =>
          simp only [hb]
          exact loanInv_repayLoan h hb
      | error e => simp only [hb]; exact h

theorem loanInv_applySeq {l : ActiveLoan} (ops : List LoanOp) (h : LoanInv l) :
    LoanInv (applySeq l ops) := by
  induction ops generalizing l with
  | nil => exact h
  | cons op rest ih => exact ih (loanInv_applyOp op h)

theorem principalZ_nonneg_of_inv {l : ActiveLoan} (h : LoanInv l) :
    0 ≤ principalZ l := by
  unfold principalZ
  have := h.repaid_le
  omega

theorem borrowLoan_ok_bound {l : ActiveLoan} {amount : ℕ} {now : ℕ}
    {l' : ActiveLoan} (hinv : LoanInv l)
    (hb : borrowLoan l amount now = .ok l') :
    (principalNat l' : ℚ) ≤ maxBorrowBound l' := by
  obtain ⟨hl', hlt, hchk, _⟩ := borrowCore_ok hb
  have hchk' := hchk rfl
  subst hl'
  have hala := loanInv_accrueTo now hinv
  have hrp := hala.repaid_le
  have hpn : principalNat { accrueTo l now with
      totalBorrowed := (accrueTo l now).totalBorrowed + amount }
      = principalNat (accrueTo l now) + amount := by
    unfold principalNat
    dsimp only
    omega
  have hacettes := hala.accrued_nonneg
  unfold maxBorrowCheck at hchk'
  unfold maxBorrowBound MaxBorrowAmount.advanceRate
  rw [hpn]
  cases hmb : (accrueTo l now).maxBorrowAmount with
  | UpToTotalBorrowed r =>
      rw [hmb] at hchk'
      simp only [decide_eq_true_eq] at hchk'
      dsimp only
      have hple : principalNat (accrueTo l now) ≤ (accrueTo l now).totalBorrowed := by
        unfold principalNat; omega
      have : ((principalNat (accrueTo l now) + amount : ℕ) : ℚ)
          ≤ (((accrueTo l now).totalBorrowed + amount : ℕ) : ℚ) := by
        exact_mod_cast Nat.add_le_add_right hple amount
      calc ((principalNat (accrueTo l now) + amount : ℕ) : ℚ)
          ≤ (((accrueTo l now).totalBorrowed + amount : ℕ) : ℚ) := this
        _ ≤ r * ((accrueTo l now).collateralValue : ℚ) := hchk'
  | UpToOutstandingDebt r =>
      rw [hmb] at hchk'
      simp only [decide_eq_true_eq] at hchk'
      unfold debtQ at hchk'
      dsimp only
      push_cast
      linarith

/-!  Policy evaluator lemmas. -/

theorem findRule_foldl (policy : List WriteOffRule) (d : ℕ) (acc : Option WriteOffRule) :
    policy.foldl (fun a rule => if ruleSatisfied d rule then some rule else a) acc
      = ((policy.filter fun r => ruleSatisfied d r).getLast?).or acc := by
  induction policy generalizing acc with
  | nil => simp
  | cons r rest ih =>
      by_cases hr : ruleSatisfied d r
      · simp only [List.foldl_cons, List.filter_cons, hr, if_true]
        rw [ih]
        cases hfr : (rest.filter fun x => ruleSatisfied d x) with
        | nil => simp [hfr]
        | cons a as =>
            rw [List.getLast?_cons_cons]
            cases h2 : (a :: as).getLast? with
            | some y => simp
            | none => simp at h2
      · rw [Bool.not_eq_true] at hr
        simp only [List.foldl_cons, List.filter_cons, hr, Bool.false_eq_true, if_false]
        rw [ih]

theorem findRule_eq_getLast (policy : List WriteOffRule) (d : ℕ) :
    findRule policy d = (policy.filter fun r => ruleSatisfied d r).getLast? := by
  unfold findRule
  rw [findRule_foldl]
  exact Option.or_none

theorem pairwise_getLast_le {xs : List WriteOffRule}
    (hp : xs.Pairwise fun a b => ruleDays a ≤ ruleDays b) {r : WriteOffRule}
    (hr : xs.getLast? = some r) : ∀ x ∈ xs, ruleDays x ≤ ruleDays r := by
  induction xs with
  | nil => cases hr
  | cons a rest ih =>
      rw [List.pairwise_cons] at hp
      intro x hx
      cases rest with
      | nil =>
          simp only [List.getLast?_singleton, Option.some.injEq] at hr
          subst hr
          simp only [List.mem_singleton] at hx
          subst hx
          exact le_refl _
      | cons b bs =>
          rw [List.getLast?_cons_cons] at hr
          rcases List.mem_cons.mp hx with hxa | hxrest
          · subst hxa
            exact hp.1 r (List.mem_of_getLast?_eq_some hr)
          · exact ih hp.2 hr x hxrest

/-!  Pool-level characterization lemmas. -/

theorem poolRepay_ok {s : PoolState} {id : ℕ} {input : RepaidInput} {now : ℕ}
    {s' : PoolState} (h : poolRepay s id input now = .ok s') :
    ∃ l l', alLookup id s.activeLoans = some l ∧ repayLoan l input now = .ok l' ∧
      s' = { s with activeLoans := alInsert id l' s.activeLoans } := by
  unfold poolRepay at h
  split at h
  case h_1 l hl =>
    split at h
    case h_1 => exact absurd h (by simp)
    case h_2 l' hrl =>
      injection h with h2
      subst h2
      exact ⟨l, l', hl, hrl, rfl⟩
  case h_2 => exact absurd h (by simp)

theorem borrowAction_ok {s : PoolState} {id : ℕ} {amount now : ℕ} {cl : Bool}
    {s' : PoolState} (h : borrowAction s id amount now cl = .ok s') :
    (∃ l l', alLookup id s.activeLoans = some l ∧
       borrowCore l amount now cl = .ok l' ∧
       s' = { s with activeLoans := alInsert id l' s.activeLoans }) ∨
    (∃ info l', alLookup id s.activeLoans = none ∧
       alLookup id s.createdLoans = some info ∧
       borrowCore (activateLoan info now) amount now cl = .ok l' ∧
       s' = { s with createdLoans := alErase id s.createdLoans
                     activeLoans := alInsert id l' s.activeLoans }) := by
  unfold borrowAction at h
  split at h
  case h_1 l hl =>
    split at h
    case h_1 => exact absurd h (by simp)
    case h_2 l' hbc =>
      injection h with h2
      subst h2
      exact Or.inl ⟨l, l', hl, hbc, rfl⟩
  case h_2 hl =>
    split at h
    case h_1 info hinfo =>
      split at h
      case h_1 => exact absurd h (by simp)
      case h_2 l' hbc =>
        injection h with h2
        subst h2
        exact Or.inr ⟨info, l', hl, hinfo, hbc, rfl⟩
    case h_2 => exact absurd h (by simp)

theorem borrowAction_changes {s : PoolState} {id : ℕ} {amount now : ℕ} {cl : Bool}
    {s' : PoolState} (h : borrowAction s id amount now cl = .ok s') :
    s'.changes = s.changes := by
  rcases borrowAction_ok h with ⟨l, l', _, _, hs⟩ | ⟨info, l', _, _, _, hs⟩ <;>
    subst hs <;> rfl

theorem transferDebt_changes {s : PoolState} {src tgt : ℕ} {repaid : RepaidInput}
    {amt now : ℕ} {s' : PoolState}
    (h : transferDebt s src tgt repaid amt now = .ok s') :
    s'.changes = s.changes := by
  unfold transferDebt at h
  split at h
  case h_1 => exact absurd h (by simp)
  case h_2 s₁ hr =>
    obtain ⟨l, l', _, _, hs₁⟩ := poolRepay_ok hr
    have h2 := borrowAction_changes h
    rw [h2, hs₁]

theorem performChange_changes {s : PoolState} {c : Change} {now : ℕ}
    {s' : PoolState} (h : performChange s c now = .ok s') :
    s'.changes = s.changes := by
  unfold performChange at h
  split at h
  · split at h
    · injection h with h2
      subst h2
      rfl
    · exact absurd h (by simp)
  · injection h with h2
    subst h2
    rfl
  · exact transferDebt_changes h

theorem applyChange_ok {s : PoolState} {id : Change} {now : ℕ} {s' : PoolState}
    (h : applyChange s id now = .ok s') :
    alLookup id s.changes = some .Released ∧
    ∃ s₁, performChange s id now = .ok s₁ ∧
      s' = { s₁ with changes := alInsert id .Applied s₁.changes } := by
  unfold applyChange at h
  split at h
  case h_1 => exact absurd h (by simp)
  case h_2 => exact absurd h (by simp)
  case h_3 => exact absurd h (by simp)
  case h_4 hrel =>
    split at h
    case h_1 => exact absurd h (by simp)
    case h_2 s₁ hperf =>
      injection h with h2
      subst h2
      exact ⟨hrel, s₁, hperf, rfl⟩

theorem countKey_eq_one_of_lookup {α β : Type} [DecidableEq α] {k : α} {v : β}
    {xs : List (α × β)} (hl : alLookup k xs = some v) (hnd : keysNodup xs) :
    countKey k xs = 1 := by
  induction xs with
  | nil => cases hl
  | cons p rest ih =>
      simp only [keysNodup, List.map_cons, List.nodup_cons] at hnd
      unfold alLookup at hl
      by_cases hk : k = p.1
      · subst hk
        have h0 : countKey p.1 rest = 0 := countKey_eq_zero hnd.1
        simp [countKey, h0]
      · rw [if_neg hk] at hl
        have h1 : ¬(p.1 = k) := fun hc => hk hc.symm
        simp [countKey, h1]
        exact ih hl hnd.2

/-!  Evaluation lemmas for already-accrued states. -/

theorem repayLoan_eval {l : ActiveLoan} {p i u : ℕ} {now : ℕ} {ap : ℕ}
    (hacc : accrueTo l now = l)
    (hap : appliedPrincipalFor l p = .ok ap)
    (hlt : l.repaidPrincipal + ap < balanceBound) :
    repayLoan l ⟨p, i, u⟩ now = .ok
      { l with repaidPrincipal := l.repaidPrincipal + ap
               accrued := l.accrued - min ((i : ℕ) : ℚ) l.accrued } := by
  unfold repayLoan
  dsimp only
  rw [hacc, hap]
  dsimp only
  unfold checkedAdd
  rw [if_pos hlt]

theorem borrowCore_eval {l : ActiveLoan} {amount now : ℕ} {cl : Bool}
    (hacc : accrueTo l now = l)
    (hwo : ¬(l.writeOff.isSome && decide (l.borrowRestriction = .NotWrittenOff)) = true)
    (hchk : ¬(cl && !maxBorrowCheck l amount) = true)
    (hlt : l.totalBorrowed + amount < balanceBound) :
    borrowCore l amount now cl = .ok { l with totalBorrowed := l.totalBorrowed + amount } := by
  unfold borrowCore
  dsimp only
  rw [hacc]
  rw [if_neg hwo, if_neg hchk]
  unfold checkedAdd
  rw [if_pos hlt]

/-!  The claims. -/

/-- C1: for every loan and every finite sequence of borrow and repay
operations applied to it, the loan's outstanding principal after the
sequence is ≥ 0, and at every successful borrow in the sequence it is
bounded above by the pricing model's max-borrow policy (advance rate ×
collateral value) evaluated at that borrow's instant. -/
theorem c1_principal_nonneg_and_borrow_bounded
    (info : LoanInfo) (t0 : ℕ) (ops : List LoanOp)
    (hrate : 0 ≤ info.interestRatePerSec) :
    0 ≤ principalZ (applySeq (activateLoan info t0) ops) ∧
    ∀ pre amt t rest l', ops = pre ++ LoanOp.borrow amt t :: rest →
      borrowLoan (applySeq (activateLoan info t0) pre) amt t = .ok l' →
      (principalNat l' : ℚ) ≤ maxBorrowBound l' := by
  have hinv0 : LoanInv (activateLoan info t0) := by
    refine ⟨le_refl 0, le_refl 0, hrate, ?_, ?_⟩
    · show (0 : ℚ) ≤ penaltyRate (activateLoan info t0)
      unfold penaltyRate activateLoan
      simp
    · show (activateLoan info t0).totalBorrowed < balanceBound
      show 0 < 2 ^ 128
      positivity
  constructor
  · exact principalZ_nonneg_of_inv (loanInv_applySeq ops hinv0)
  · intro pre amt t rest l' hops hb
    exact borrowLoan_ok_bound (loanInv_applySeq pre hinv0) hb

/-- C7: for every active loan satisfying the ledger invariant,
`borrow(amount)` immediately followed by `repay(amount, 0, 0)` at the same
instant succeeds and returns the loan's outstanding principal to its
pre-borrow value, with zero interest accrued between the two
operations. -/
theorem c7_borrow_repay_roundtrip {l : ActiveLoan} {amt t : ℕ} {l' : ActiveLoan}
    (hinv : LoanInv l) (hb : borrowLoan l amt t = .ok l') :
    ∃ l'', repayLoan l' ⟨amt, 0, 0⟩ t = .ok l'' ∧
      principalZ l'' = principalZ l ∧
      l''.accrued = l'.accrued := by
  obtain ⟨hl', hlt, _, _⟩ := borrowCore_ok hb
  subst hl'
  have hala := loanInv_accrueTo t hinv
  have hrp := hala.repaid_le
  have hpn : principalNat { accrueTo l t with
      totalBorrowed := (accrueTo l t).totalBorrowed + amt }
      = principalNat (accrueTo l t) + amt := by
    unfold principalNat
    dsimp only
    omega
  have hacc2 : accrueTo { accrueTo l t with
      totalBorrowed := (accrueTo l t).totalBorrowed + amt } t
      = { accrueTo l t with totalBorrowed := (accrueTo l t).totalBorrowed + amt } := by
    apply accrueTo_id_of_le
    show t ≤ (accrueTo l t).lastUpdated
    exact le_lastUpdated_accrueTo l t
  have hap : appliedPrincipalFor { accrueTo l t with
      totalBorrowed := (accrueTo l t).totalBorrowed + amt } amt = .ok amt := by
    unfold appliedPrincipalFor
    rw [hpn]
    split
    · rw [min_eq_left (Nat.le_add_left amt _)]
    · rw [if_pos (Nat.le_add_left amt _)]
  have hrep := repayLoan_eval (i := 0) (u := 0) hacc2 hap
    (by show (accrueTo l t).repaidPrincipal + amt < balanceBound; omega)
  refine ⟨_, hrep, ?_, ?_⟩
  · have hpz : principalZ (accrueTo l t) = principalZ l := principalZ_accrueTo l t
    unfold principalZ at hpz ⊢
    dsimp only
    push_cast at hpz ⊢
    linarith
  · dsimp only
    rw [Nat.cast_zero, min_eq_left hala.accrued_nonneg]
    ring

/-- C8: fixed-point/balance arithmetic is checked, never wrapped or
saturated: a successful checked addition returns the exact mathematical
sum within the `u128` range, an out-of-range sum fails with
`ArithmeticOverflow`, and a borrow whose balance update would overflow
fails with `ArithmeticOverflow` leaving the ledger unchanged. -/
theorem c8_overflow_surfaced (l : ActiveLoan) (amount now : ℕ)
    (hwo : l.writeOff = none)
    (hchk : maxBorrowCheck (accrueTo l now) amount = true)
    (hover : balanceBound ≤ l.totalBorrowed + amount) :
    borrowLoan l amount now = .error .ArithmeticOverflow ∧
    applyOp l (.borrow amount now) = l ∧
    (∀ a b c : ℕ, checkedAdd a b = .ok c → c = a + b ∧ c < balanceBound) ∧
    (∀ a b : ℕ, balanceBound ≤ a + b → checkedAdd a b = .error .ArithmeticOverflow) := by
  have herr : borrowLoan l amount now = .error .ArithmeticOverflow := by
    unfold borrowLoan borrowCore
    dsimp only
    have h1 : ¬((accrueTo l now).writeOff.isSome &&
        decide ((accrueTo l now).borrowRestriction = BorrowRestrictions.NotWrittenOff)) = true := by
      simp [accrueTo_writeOff, hwo]
    have h2 : ¬(true && !maxBorrowCheck (accrueTo l now) amount) = true := by
      simp [hchk]
    rw [if_neg h1, if_neg h2]
    unfold checkedAdd
    rw [if_neg (by rw [accrueTo_totalBorrowed]; omega)]
  refine ⟨herr, ?_, ?_, ?_⟩
  · unfold applyOp exceptGetD stepLoan
    dsimp only
    rw [herr]
  · intro a b c h
    unfold checkedAdd at h
    split at h
    · injection h with h2
      subst h2
      exact ⟨rfl, by assumption⟩
    · cases h
  · intro a b h
    unfold checkedAdd
    rw [if_neg (by omega)]

/-- C10: for an active loan that is not yet overdue, `admin_write_off`
with percentage 0 and penalty 0 succeeds even when a write-off policy with
non-zero terms is configured, because no policy rule (all of whose
triggers require at least one day overdue) currently applies to the
loan. -/
theorem c10_admin_write_off_zero (l : ActiveLoan) (policy : List WriteOffRule)
    (now : ℕ) (hnow : now ≤ l.maturity)
    (hpol : ∀ r ∈ policy, ∀ tr ∈ r.triggers, 1 ≤ triggerDaysOf tr) :
    adminWriteOff l policy 0 0 now
      = .ok { accrueTo l now with writeOff := some ⟨0, 0⟩ } := by
  have hov : overdueSecs (accrueTo l now) now = 0 := by
    unfold overdueSecs
    rw [accrueTo_maturity]
    omega
  have hall : ∀ r ∈ policy, ruleSatisfied 0 r = false := by
    intro r hr
    unfold ruleSatisfied
    rw [List.any_eq_false]
    intro tr htr
    have h1 := hpol r hr tr htr
    cases tr with
    | PrincipalOverdueDays d =>
        simp only [triggerDaysOf] at h1
        unfold triggerSatisfied secsPerDay
        simp only [decide_eq_true_eq]
        omega
  have hnone : findRule policy 0 = none := by
    rw [findRule_eq_getLast, List.getLast?_eq_none_iff, List.filter_eq_nil_iff]
    intro a ha
    simp [hall a ha]
  unfold adminWriteOff
  dsimp only
  rw [hov, hnone]

section
attribute [local semireducible] Rat.mul Rat.add Rat.sub Rat.inv

/-- C2 counterexample: with the two rules of the spec's example placed in
the order [B, A] — B = (30 days, 100%, 5%) before A = (1 day, 10%, 1%) —
at 40 days overdue both are satisfied and B's threshold is larger, yet the
evaluator (last satisfied rule wins) returns A's terms, not B's. -/
theorem c2_counterexample :
    ruleSatisfied (40 * secsPerDay) ruleB = true ∧
    ruleSatisfied (40 * secsPerDay) ruleA = true ∧
    ruleDays ruleA < ruleDays ruleB ∧
    findRule [ruleB, ruleA] (40 * secsPerDay) = some ruleA ∧
    ¬(ruleA.percentage = ruleB.percentage ∧ ruleA.penalty = ruleB.penalty) := by
  refine ⟨?_, ?_, ?_, ?_, ?_⟩ <;> decide

end

/-- C2 (amended): for policies whose overdue-day thresholds are
nondecreasing in sequence order, the evaluator returns the last rule in
sequence order whose trigger is satisfied; that rule is satisfied and
carries a maximal threshold among all satisfied rules (later position
breaks ties); the result is `none` exactly when no rule is satisfied. -/
theorem c2_policy_eval_monotone (policy : List WriteOffRule) (overdue : ℕ)
    (hmono : policy.Pairwise fun a b => ruleDays a ≤ ruleDays b) :
    findRule policy overdue
      = (policy.filter fun r => ruleSatisfied overdue r).getLast? ∧
    (∀ r, findRule policy overdue = some r →
      ruleSatisfied overdue r = true ∧
      ∀ x ∈ policy, ruleSatisfied overdue x = true → ruleDays x ≤ ruleDays r) ∧
    (findRule policy overdue = none ↔
      ∀ r ∈ policy, ruleSatisfied overdue r = false) := by
  refine ⟨findRule_eq_getLast policy overdue, ?_, ?_⟩
  · intro r hr
    rw [findRule_eq_getLast] at hr
    have hmem := List.mem_of_getLast?_eq_some hr
    have hsat : ruleSatisfied overdue r = true := (List.mem_filter.mp hmem).2
    refine ⟨hsat, ?_⟩
    intro x hx hxsat
    have hxf : x ∈ policy.filter fun r => ruleSatisfied overdue r :=
      List.mem_filter.mpr ⟨hx, hxsat⟩
    exact pairwise_getLast_le (hmono.filter _) hr x hxf
  · rw [findRule_eq_getLast, List.getLast?_eq_none_iff, List.filter_eq_nil_iff]
    constructor
    · intro h r hr
      simpa using h r hr
    · intro h r hr
      simp [h r hr]

/-- C3: proposing the same byte-identical Change content twice before the
first proposal is applied returns the same ChangeId both times, leaves the
gateway state unchanged on the second note, and stores exactly one record
for that content. -/
theorem c3_note_idempotent (s : PoolState) (c : Change)
    (hna : alLookup c s.changes ≠ some .Applied)
    (hnd : keysNodup s.changes) :
    (noteChange s c).1 = c ∧
    noteChange (noteChange s c).2 c = (c, (noteChange s c).2) ∧
    countKey c ((noteChange s c).2).changes = 1 := by
  have hfst : (noteChange s c).1 = c := by
    unfold noteChange
    cases alLookup c s.changes with
    | none => rfl
    | some st => cases st <;> rfl
  cases hl : alLookup c s.changes with
  | none =>
      have hstate : (noteChange s c).2
          = { s with changes := alInsert c ChangeStatus.Proposed s.changes } := by
        unfold noteChange
        rw [hl]
      refine ⟨hfst, ?_, ?_⟩
      · rw [hstate]
        unfold noteChange
        rw [show alLookup c (alInsert c ChangeStatus.Proposed s.changes)
          = some ChangeStatus.Proposed from alLookup_alInsert_self _ _ _]
      · rw [hstate]
        exact countKey_alInsert _ hnd
  | some st =>
      cases st with
      | Applied => exact absurd hl hna
      | Proposed =>
          have hstate : (noteChange s c).2 = s := by
            unfold noteChange
            rw [hl]
          refine ⟨hfst, ?_, ?_⟩
          · rw [hstate]
            unfold noteChange
            rw [hl]
          · rw [hstate]
            exact countKey_eq_one_of_lookup hl hnd
      | Released =>
          have hstate : (noteChange s c).2 = s := by
            unfold noteChange
            rw [hl]
          refine ⟨hfst, ?_, ?_⟩
          · rw [hstate]
            unfold noteChange
            rw [hl]
          · rw [hstate]
            exact countKey_eq_one_of_lookup hl hnd

/-- C4: once a Change has been successfully applied, any subsequent apply
call with the same ChangeId fails with `ChangeAlreadyApplied` and the
transactional wrapper leaves the pool state unchanged. -/
theorem c4_change_single_use {s : PoolState} {id : Change} {now : ℕ}
    {s' : PoolState} (now' : ℕ) (h : applyChange s id now = .ok s') :
    applyChange s' id now' = .error .ChangeAlreadyApplied ∧
    applyChangeOr s' id now' = s' := by
  obtain ⟨hrel, s₁, hperf, hs'⟩ := applyChange_ok h
  have hlook : alLookup id s'.changes = some .Applied := by
    rw [hs']
    exact alLookup_alInsert_self _ _ _
  have herr : applyChange s' id now' = .error .ChangeAlreadyApplied := by
    unfold applyChange
    rw [hlook]
  refine ⟨herr, ?_⟩
  unfold applyChangeOr exceptGetD
  rw [herr]

/-- C5: the debt-transfer Change repays on the source loan and borrows on
the target loan as one atomic unit: when the target loan's borrow would
exceed its borrow limit, the whole `apply_transfer_debt` fails and the
pool — in particular the source loan's ledger — is left completely
unchanged. -/
theorem c5_transfer_debt_atomic {s : PoolState} {src tgt : ℕ}
    {repaid : RepaidInput} {amt now : ℕ} {tl : ActiveLoan}
    (hne : src ≠ tgt)
    (htl : alLookup tgt s.activeLoans = some tl)
    (hwo : tl.writeOff = none)
    (hlimit : maxBorrowCheck (accrueTo tl now) amt = false) :
    (∃ e, transferDebt s src tgt repaid amt now = .error e) ∧
    transferDebtOr s src tgt repaid amt now = s ∧
    alLookup src (transferDebtOr s src tgt repaid amt now).activeLoans
      = alLookup src s.activeLoans := by
  have hfail : ∃ e, transferDebt s src tgt repaid amt now = .error e := by
    unfold transferDebt
    cases hr : poolRepay s src repaid now with
    | error e => exact ⟨e, rfl⟩
    | ok s₁ =>
        obtain ⟨lsrc, lsrc', hl, hrl, hs₁⟩ := poolRepay_ok hr
        have htl' : alLookup tgt s₁.activeLoans = some tl := by
          rw [hs₁]
          show alLookup tgt (alInsert src lsrc' s.activeLoans) = some tl
          rw [alLookup_alInsert_ne _ _ (fun hc => hne hc.symm)]
          exact htl
        have hbc : borrowCore tl amt now true = .error .BorrowLimitExceeded := by
          unfold borrowCore
          dsimp only
          have h1 : ¬((accrueTo tl now).writeOff.isSome && decide
              ((accrueTo tl now).borrowRestriction
                = BorrowRestrictions.NotWrittenOff)) = true := by
            simp [accrueTo_writeOff, hwo]
          have h2 : (true && !maxBorrowCheck (accrueTo tl now) amt) = true := by
            simp [hlimit]
          rw [if_neg h1, if_pos h2]
        have hb : borrowAction s₁ tgt amt now true = .error .BorrowLimitExceeded := by
          unfold borrowAction
          rw [htl']
          dsimp only
          rw [hbc]
        refine ⟨.BorrowLimitExceeded, ?_⟩
        dsimp only
        exact hb
  obtain ⟨e, he⟩ := hfail
  refine ⟨⟨e, he⟩, ?_, ?_⟩
  · unfold transferDebtOr exceptGetD
    rw [he]
  · unfold transferDebtOr exceptGetD
    rw [he]

/-- C9: `increase_debt` succeeds on a loan that has been created but never
borrowed against, activating it as it applies the principal increase — it
does not require the loan to already be active. -/
theorem c9_increase_debt_activates {s : PoolState} {id : ℕ} {info : LoanInfo}
    {amt : ℕ} (now : ℕ)
    (hc : alLookup id s.createdLoans = some info)
    (ha : alLookup id s.activeLoans = none)
    (hamt : amt < balanceBound) :
    increaseDebt s id amt now = .ok
      { s with createdLoans := alErase id s.createdLoans
               activeLoans := alInsert id
                 { activateLoan info now with totalBorrowed := amt } s.activeLoans } ∧
    principalNat { activateLoan info now with totalBorrowed := amt } = amt := by
  have hacc : accrueTo (activateLoan info now) now = activateLoan info now :=
    accrueTo_id_of_le (le_refl _)
  have h0 : (activateLoan info now).totalBorrowed + amt = amt := by
    show 0 + amt = amt
    omega
  have hbc : borrowCore (activateLoan info now) amt now false
      = .ok { activateLoan info now with totalBorrowed := amt } := by
    rw [borrowCore_eval hacc (by simp [activateLoan]) (by simp)
      (by rw [h0]; exact hamt), h0]
  constructor
  · unfold increaseDebt borrowAction
    rw [ha]
    dsimp only
    rw [hc]
    dsimp only
    rw [hbc]
  · show amt - (activateLoan info now).repaidPrincipal = amt
    show amt - 0 = amt
    omega

section
attribute [local semireducible] Rat.mul Rat.add Rat.sub Rat.inv

/-- C6: for a loan with internal pricing, `UpToOutstandingDebt` with
advance rate 1.0 and collateral value 1,000,000 and no prior debt, a
borrow of exactly 1,000,000 succeeds while 1,000,001 fails with
`BorrowLimitExceeded`; the cap constrains current outstanding debt, not
cumulative borrowed: after full repayment the loan borrows 1,000,000 again
although cumulative borrowed then reaches 2,000,000, beyond the cap. -/
theorem c6_borrow_limit_boundary :
    borrowLoan exampleLoan 1000000 0
      = .ok { exampleLoan with totalBorrowed := 1000000 } ∧
    borrowLoan exampleLoan 1000001 0 = .error .BorrowLimitExceeded ∧
    repayLoan { exampleLoan with totalBorrowed := 1000000 } ⟨1000000, 0, 0⟩ 0
      = .ok { exampleLoan with
          totalBorrowed := 1000000
          repaidPrincipal := 1000000 } ∧
    borrowLoan { exampleLoan with
        totalBorrowed := 1000000
        repaidPrincipal := 1000000 } 1000000 0
      = .ok { exampleLoan with
          totalBorrowed := 2000000
          repaidPrincipal := 1000000 } ∧
    maxBorrowBound exampleLoan < (2000000 : ℚ) := by
  refine ⟨?_, ?_, ?_, ?_, ?_⟩ <;> decide

/-- C1 witness: the theorem applied to the example descriptor and a
concrete borrow/repay sequence. -/
theorem c1_witness :
    0 ≤ principalZ (applySeq (activateLoan exampleInfo 0) exampleOps) ∧
    ∀ pre amt t rest l', exampleOps = pre ++ LoanOp.borrow amt t :: rest →
      borrowLoan (applySeq (activateLoan exampleInfo 0) pre) amt t = .ok l' →
      (principalNat l' : ℚ) ≤ maxBorrowBound l' :=
  c1_principal_nonneg_and_borrow_bounded exampleInfo 0 exampleOps (by decide)

/-- C2 witness: the amended theorem applied to the spec's example policy
[(1 day, 10%, 1%), (30 days, 100%, 5%)] at 40 days overdue, which indeed
yields the (100%, 5%) rule. -/
theorem c2_witness :
    (([ruleA, ruleB] : List WriteOffRule).Pairwise
      fun a b => ruleDays a ≤ ruleDays b) ∧
    (findRule [ruleA, ruleB] (40 * secsPerDay)
        = ([ruleA, ruleB].filter
            fun r => ruleSatisfied (40 * secsPerDay) r).getLast? ∧
      (∀ r, findRule [ruleA, ruleB] (40 * secsPerDay) = some r →
        ruleSatisfied (40 * secsPerDay) r = true ∧
        ∀ x ∈ [ruleA, ruleB], ruleSatisfied (40 * secsPerDay) x = true →
          ruleDays x ≤ ruleDays r) ∧
      (findRule [ruleA, ruleB] (40 * secsPerDay) = none ↔
        ∀ r ∈ [ruleA, ruleB], ruleSatisfied (40 * secsPerDay) r = false)) ∧
    findRule [ruleA, ruleB] (40 * secsPerDay) = some ruleB ∧
    ruleB.percentage = 1 ∧ ruleB.penalty = 1 / 20 :=
  ⟨by decide,
   c2_policy_eval_monotone [ruleA, ruleB] (40 * secsPerDay) (by decide),
   by decide, by decide, by decide⟩

/-- C3 witness: noting a fresh policy Change twice on the example pool. -/
theorem c3_witness :
    (noteChange examplePool (Change.Policy [ruleA])).1 = Change.Policy [ruleA] ∧
    noteChange (noteChange examplePool (Change.Policy [ruleA])).2
        (Change.Policy [ruleA])
      = (Change.Policy [ruleA],
         (noteChange examplePool (Change.Policy [ruleA])).2) ∧
    countKey (Change.Policy [ruleA])
      ((noteChange examplePool (Change.Policy [ruleA])).2).changes = 1 :=
  c3_note_idempotent examplePool (Change.Policy [ruleA]) (by decide)
    (by unfold keysNodup; decide)

/-- C4 witness: applying the example Change once and replaying it. -/
theorem c4_witness :
    applyChange examplePoolApplied exampleChange 5
      = .error .ChangeAlreadyApplied ∧
    applyChangeOr examplePoolApplied exampleChange 5 = examplePoolApplied :=
  c4_change_single_use 5
    (by decide : applyChange examplePool exampleChange 0 = .ok examplePoolApplied)

/-- C5 witness: transferring debt towards the small-limit target loan. -/
theorem c5_witness :
    (∃ e, transferDebt transferPool 1 2 ⟨10, 0, 0⟩ 50 0 = .error e) ∧
    transferDebtOr transferPool 1 2 ⟨10, 0, 0⟩ 50 0 = transferPool ∧
    alLookup 1 (transferDebtOr transferPool 1 2 ⟨10, 0, 0⟩ 50 0).activeLoans
      = alLookup 1 transferPool.activeLoans :=
  @c5_transfer_debt_atomic transferPool 1 2 ⟨10, 0, 0⟩ 50 0 smallLoan
    (by decide) (by decide) (by decide) (by decide)

/-- C7 witness: borrow 10 then repay 10 at instant 0 on the example
loan. -/
theorem c7_witness :
    ∃ l'', repayLoan { exampleLoan with totalBorrowed := 10 } ⟨10, 0, 0⟩ 0
        = .ok l'' ∧
      principalZ l'' = principalZ exampleLoan ∧
      l''.accrued = ({ exampleLoan with totalBorrowed := 10 } : ActiveLoan).accrued :=
  c7_borrow_repay_roundtrip
    ⟨by decide, by decide, by decide, by decide, by decide⟩
    (by decide : borrowLoan exampleLoan 10 0
      = .ok { exampleLoan with totalBorrowed := 10 })

/-- C8 witness: a borrow that passes the limit check against oversized
collateral but overflows the `u128` balance. -/
theorem c8_witness :
    borrowLoan bigLoan balanceBound 0 = .error .ArithmeticOverflow ∧
    applyOp bigLoan (.borrow balanceBound 0) = bigLoan ∧
    (∀ a b c : ℕ, checkedAdd a b = .ok c → c = a + b ∧ c < balanceBound) ∧
    (∀ a b : ℕ, balanceBound ≤ a + b →
      checkedAdd a b = .error .ArithmeticOverflow) :=
  c8_overflow_surfaced bigLoan balanceBound 0 (by decide) (by decide) (by decide)

/-- C9 witness: `increase_debt` on the created, never-borrowed loan 2. -/
theorem c9_witness :
    increaseDebt createdPool 2 10 0 = .ok
      { createdPool with
        createdLoans := alErase 2 createdPool.createdLoans
        activeLoans := alInsert 2
          { activateLoan exampleInfo 0 with totalBorrowed := 10 }
          createdPool.activeLoans } ∧
    principalNat { activateLoan exampleInfo 0 with totalBorrowed := 10 } = 10 :=
  c9_increase_debt_activates 0 (by decide) (by decide) (by decide)

/-- C10 witness: zero-terms admin write-off at instant 100, before the
40-year maturity, under the non-zero example policy. -/
theorem c10_witness :
    adminWriteOff exampleLoan [ruleA, ruleB] 0 0 100
      = .ok { accrueTo exampleLoan 100 with writeOff := some ⟨0, 0⟩ } :=
  c10_admin_write_off_zero exampleLoan [ruleA, ruleB] 100 (by decide) (by decide)

end

end Loans
